import Mathlib

/-!
Verification development for the quantity-take-off PDF extraction core
(`api/extract.py` and `local_server.py`).

The embedding models text as `List Char` and page coordinates as rationals.
Python dictionaries are modelled as insertion-ordered association lists.
-/

/-! ### Characters and Python string helpers -/

/-- ASCII whitespace, as recognised by Python's `str.strip` and `\s`. -/
def isSpaceChar (c : Char) : Bool :=
  c = ' ' || c = '\t' || c = '\n' || c = '\r' || c = '\x0b' || c = '\x0c'

/-- Python `str.strip()`: drop whitespace from both ends. -/
def pyStrip (t : List Char) : List Char :=
  ((t.dropWhile isSpaceChar).reverse.dropWhile isSpaceChar).reverse

/-- The character class `[A-Z]`. -/
def isUpperAZ (c : Char) : Bool := 'A' ≤ c && c ≤ 'Z'

/-- The character class `[a-z]`. -/
def isLowerAZ (c : Char) : Bool := 'a' ≤ c && c ≤ 'z'

/-- The character class `\d` (ASCII digits). -/
def isDigit09 (c : Char) : Bool := '0' ≤ c && c ≤ '9'

/-- Case-insensitive character comparison, as under `re.IGNORECASE`. -/
def charCIEq (p c : Char) : Bool := p.toLower = c.toLower

/-- Match a literal pattern case-insensitively as a prefix of `t`,
returning the remaining text on success. -/
def matchCI : List Char → List Char → Option (List Char)
  | [], t => some t
  | _ :: _, [] => none
  | p :: ps, c :: cs => if charCIEq p c then matchCI ps cs else none

/-- Case-sensitive literal prefix test. -/
def hasPrefixL : List Char → List Char → Bool
  | [], _ => true
  | _ :: _, [] => false
  | p :: ps, c :: cs => p = c && hasPrefixL ps cs

/-- Substring test (does `pat` occur contiguously in the text?). -/
def containsSub (pat : List Char) : List Char → Bool
  | [] => hasPrefixL pat []
  | c :: cs => hasPrefixL pat (c :: cs) || containsSub pat cs

/-! ### Data model -/

/-- A bounding box `(x0, y0, x1, y1)` in page coordinates. -/
structure BBox where
  x0 : ℚ
  y0 : ℚ
  x1 : ℚ
  y1 : ℚ
deriving DecidableEq, Repr

/-- A positioned text fragment / clustered run, the span dictionaries of
`cluster_text` in `api/extract.py`. -/
structure Span where
  text : List Char
  x : ℚ
  y : ℚ
  bbox : BBox
  font : List Char
  size : ℚ
deriving DecidableEq, Repr

/-- One occurrence of a construction marker: the `{x, y, bbox, page}`
record appended to `results["markers"][text]`. -/
structure MarkerOccurrence where
  x : ℚ
  y : ℚ
  bbox : BBox
  page : Nat
deriving DecidableEq, Repr

/-- One classified element of `results["all_text_elements"]`. -/
structure Element where
  text : List Char
  x : ℚ
  y : ℚ
  bbox : BBox
  font : List Char
  size : ℚ
  page : Nat
  type : List Char
deriving DecidableEq, Repr

/-! ### TextClusterer (`cluster_text`) -/

/-- Python's builtin `abs` on rationals. -/
def rabs (q : ℚ) : ℚ := if q < 0 then -q else q

/-- Python's builtin two-argument `max` on rationals. -/
def rmax (a b : ℚ) : ℚ := if a ≤ b then b else a

/-- `same_line = abs(next_span['y'] - current['y']) < 2`. -/
def same_line (cur nxt : Span) : Bool :=
  decide (rabs (nxt.y - cur.y) < 2)

/-- `close_horizontally = (next_span['x'] - (current['x'] + len(current['text']) * 2)) < threshold`. -/
def close_horizontally (threshold : ℚ) (cur nxt : Span) : Bool :=
  decide (nxt.x - (cur.x + (cur.text.length : ℚ) * 2) < threshold)

/-- The merge step of `cluster_text`: concatenate the text and extend the
bbox, keeping the current left/top, taking the candidate's right edge and
the max of the bottom edges. `x`, `y`, `font`, `size` stay those of the
current cluster. -/
def mergeSpan (cur nxt : Span) : Span :=
  { cur with
      text := cur.text ++ nxt.text,
      bbox := ⟨cur.bbox.x0, cur.bbox.y0, nxt.bbox.x1, rmax cur.bbox.y1 nxt.bbox.y1⟩ }

/-- Emit the current cluster if its stripped text is non-empty
(`if current['text'].strip()`). -/
def emitCur (cur : Span) : List Span :=
  if pyStrip cur.text = [] then [] else [cur]

/-- The main loop of `cluster_text` over the sorted tail. -/
def clusterLoop (threshold : ℚ) (cur : Span) : List Span → List Span
  | [] => emitCur cur
  | nxt :: rest =>
    if same_line cur nxt && close_horizontally threshold cur nxt then
      clusterLoop threshold (mergeSpan cur nxt) rest
    else
      emitCur cur ++ clusterLoop threshold nxt rest

/-- Lexicographic comparison on the sort key `(y, x)` used by
`spans.sort(key=lambda s: (s['y'], s['x']))`. -/
def spanKeyLE (a b : Span) : Bool :=
  decide (a.y < b.y) || (decide (a.y = b.y) && decide (a.x ≤ b.x))

/-- Stable insertion into a `(y, x)`-sorted list: the new element goes
after every element whose key is ≤ its own. -/
def insertSpan (s : Span) : List Span → List Span
  | [] => [s]
  | t :: ts => if spanKeyLE t s then t :: insertSpan s ts else s :: t :: ts

/-- Stable sort by `(y, x)`, modelling Python's stable `list.sort`. -/
def sortSpans (spans : List Span) : List Span :=
  spans.foldl (fun acc s => insertSpan s acc) []

/-- `cluster_text(spans, threshold=5)` from `api/extract.py`: sort by
`(y, x)`, then fold merging decisions over the sorted fragments. -/
def cluster_text (spans : List Span) (threshold : ℚ := 5) : List Span :=
  match sortSpans spans with
  | [] => []
  | s :: rest => clusterLoop threshold s rest

/-! ### MarkerClassifier (`is_construction_marker`) -/

/-- `^[A-Z]{1,4}\d{1,3}[a-z]?$` on the stripped text. The character
classes of consecutive pieces are disjoint, so greedy matching is maximal
munch. -/
def markerPat1 (t : List Char) : Bool :=
  let u := t.takeWhile isUpperAZ
  let r1 := t.drop u.length
  let d := r1.takeWhile isDigit09
  let r2 := r1.drop d.length
  decide (1 ≤ u.length) && decide (u.length ≤ 4) &&
  decide (1 ≤ d.length) && decide (d.length ≤ 3) &&
  (match r2 with
   | [] => true
   | [c] => isLowerAZ c
   | _ => false)

/-- `^[A-Z]{1,2}-\d{1,3}$` on the stripped text. -/
def markerPat2 (t : List Char) : Bool :=
  let u := t.takeWhile isUpperAZ
  let r1 := t.drop u.length
  decide (1 ≤ u.length) && decide (u.length ≤ 2) &&
  (match r1 with
   | '-' :: r2 =>
     let d := r2.takeWhile isDigit09
     decide (1 ≤ d.length) && decide (d.length ≤ 3) && decide (r2.drop d.length = [])
   | _ => false)

/-- `^[A-Z]\d{1,3}[A-Z]?$` on the stripped text. -/
def markerPat3 (t : List Char) : Bool :=
  match t with
  | c :: r1 =>
    isUpperAZ c &&
    (let d := r1.takeWhile isDigit09
     let r2 := r1.drop d.length
     decide (1 ≤ d.length) && decide (d.length ≤ 3) &&
     (match r2 with
      | [] => true
      | [c2] => isUpperAZ c2
      | _ => false))
  | [] => false

/-- One alternative of `^(SC|BP|RW|FB|C|B|W)\d{1,3}$`: the literal
prefix, then 1–3 digits, then end of string. -/
def markerPat4Alt (pre : List Char) (t : List Char) : Bool :=
  hasPrefixL pre t &&
  (let r := t.drop pre.length
   let d := r.takeWhile isDigit09
   decide (1 ≤ d.length) && decide (d.length ≤ 3) && decide (r.drop d.length = []))

/-- `^(SC|BP|RW|FB|C|B|W)\d{1,3}$` on the stripped text. -/
def markerPat4 (t : List Char) : Bool :=
  markerPat4Alt "SC".toList t || markerPat4Alt "BP".toList t ||
  markerPat4Alt "RW".toList t || markerPat4Alt "FB".toList t ||
  markerPat4Alt "C".toList t || markerPat4Alt "B".toList t ||
  markerPat4Alt "W".toList t

/-- `is_construction_marker(text)`: strip the text, then test the four
anchored patterns in order (any-match semantics). -/
def is_construction_marker (text : List Char) : Bool :=
  let s := pyStrip text
  markerPat1 s || markerPat2 s || markerPat3 s || markerPat4 s

/-! ### TitleBlockExtractor (`extract_title_block_info`)

Each field is a Python regex searched case-insensitively over the joined
text.  The separator/consumer character classes of adjacent pieces are
disjoint, so greedy matching is maximal munch and the scanners below are
exact translations of `re.search` semantics (leftmost match, ordered
alternation). -/

/-- The separator class `[\s.:]`. -/
def isSepChar (c : Char) : Bool := isSpaceChar c || c = '.' || c = ':'

/-- The class `[A-Z0-9-]` under `re.IGNORECASE` (so lowercase letters
match too). -/
def isDwgCapChar (c : Char) : Bool :=
  isUpperAZ c || isLowerAZ c || isDigit09 c || c = '-'

/-- The class `[A-Z0-9]` under `re.IGNORECASE`. -/
def isRevCapChar (c : Char) : Bool := isUpperAZ c || isLowerAZ c || isDigit09 c

/-- After a matched `DWG`/`DRAWING` label: `[\s.:]*([A-Z0-9-]+)`. -/
def captureDwg (r : List Char) : Option (List Char) :=
  let cap := (r.dropWhile isSepChar).takeWhile isDwgCapChar
  if cap = [] then none else some cap

/-- Try `(?:DWG|DRAWING)[\s.:]*([A-Z0-9-]+)` anchored at this position
(the two label alternatives are mutually exclusive prefixes). -/
def tryDwgAt (t : List Char) : Option (List Char) :=
  match matchCI "DWG".toList t with
  | some r => captureDwg r
  | none =>
    match matchCI "DRAWING".toList t with
    | some r => captureDwg r
    | none => none

/-- `re.search` scan for the `drawing_number` pattern. -/
def findDrawingNumber : List Char → Option (List Char)
  | [] => none
  | c :: cs =>
    match tryDwgAt (c :: cs) with
    | some v => some v
    | none => findDrawingNumber cs

/-- After a matched `REV`/`REVISION` label: `[\s.:]*([A-Z0-9]+)`. -/
def captureRev (r : List Char) : Option (List Char) :=
  let cap := (r.dropWhile isSepChar).takeWhile isRevCapChar
  if cap = [] then none else some cap

/-- Try `(?:REV|REVISION)[\s.:]*([A-Z0-9]+)` at this position.  `REV` is
tried first; on failure the engine backtracks to the `REVISION`
alternative. -/
def tryRevAt (t : List Char) : Option (List Char) :=
  match (matchCI "REV".toList t).bind captureRev with
  | some v => some v
  | none => (matchCI "REVISION".toList t).bind captureRev

/-- `re.search` scan for the `revision` pattern. -/
def findRevision : List Char → Option (List Char)
  | [] => none
  | c :: cs =>
    match tryRevAt (c :: cs) with
    | some v => some v
    | none => findRevision cs

/-- After a matched `SCALE` label: `[\s.:]*(\d+:\d+|\d+\/\d+)`.  The two
alternatives share the leading `\d+`; the ratio form is tried first. -/
def captureScale (r : List Char) : Option (List Char) :=
  let r1 := r.dropWhile isSepChar
  let d1 := r1.takeWhile isDigit09
  if d1 = [] then none else
  match r1.drop d1.length with
  | ':' :: r2 =>
    let d2 := r2.takeWhile isDigit09
    if d2 = [] then none else some (d1 ++ ':' :: d2)
  | '/' :: r2 =>
    let d2 := r2.takeWhile isDigit09
    if d2 = [] then none else some (d1 ++ '/' :: d2)
  | _ => none

/-- `re.search` scan for the `scale` pattern. -/
def findScale : List Char → Option (List Char)
  | [] => none
  | c :: cs =>
    match (matchCI "SCALE".toList (c :: cs)).bind captureScale with
    | some v => some v
    | none => findScale cs

/-- Try the `date` pattern anchored at this position: 1-2 digits, a
slash-or-hyphen separator, 1-2 digits, another such separator, then 2-4
digits.  A greedy `\d` repetition bounded above by 2 and followed by the
separator class succeeds only when the maximal digit run here has length
1 or 2 (longer runs leave a digit in front of the required separator
under every backtracking choice). -/
def tryDateAt (t : List Char) : Option (List Char) :=
  let d1 := t.takeWhile isDigit09
  if d1 = [] ∨ 3 ≤ d1.length then none else
  match t.drop d1.length with
  | s1 :: r1 =>
    if s1 = '/' ∨ s1 = '-' then
      let d2 := r1.takeWhile isDigit09
      if d2 = [] ∨ 3 ≤ d2.length then none else
      match r1.drop d2.length with
      | s2 :: r2 =>
        if s2 = '/' ∨ s2 = '-' then
          let d3 := r2.takeWhile isDigit09
          if d3.length < 2 then none else
          some (d1 ++ s1 :: d2 ++ s2 :: d3.take 4)
        else none
      | [] => none
    else none
  | [] => none

/-- `re.search` scan for the `date` pattern. -/
def findDate : List Char → Option (List Char)
  | [] => none
  | c :: cs =>
    match tryDateAt (c :: cs) with
    | some v => some v
    | none => findDate cs

/-- After a matched `SHEET`/`SHT` label:
`[\s.:]*(\d+)\s*(?:OF|/)\s*(\d+)`, yielding the two captured groups. -/
def captureSheet (r : List Char) : Option (List Char × List Char) :=
  let r1 := r.dropWhile isSepChar
  let d1 := r1.takeWhile isDigit09
  if d1 = [] then none else
  let r2 := (r1.drop d1.length).dropWhile isSpaceChar
  let after :=
    match matchCI "OF".toList r2 with
    | some r3 => some r3
    | none => match r2 with
              | '/' :: r3 => some r3
              | _ => none
  match after with
  | none => none
  | some r3 =>
    let d2 := (r3.dropWhile isSpaceChar).takeWhile isDigit09
    if d2 = [] then none else some (d1, d2)

/-- Try `(?:SHEET|SHT)...` at this position (mutually exclusive label
prefixes). -/
def trySheetAt (t : List Char) : Option (List Char × List Char) :=
  match matchCI "SHEET".toList t with
  | some r => captureSheet r
  | none =>
    match matchCI "SHT".toList t with
    | some r => captureSheet r
    | none => none

/-- `re.search` scan for the `sheet` pattern (present only in
`api/extract.py`). -/
def findSheet : List Char → Option (List Char × List Char)
  | [] => none
  | c :: cs =>
    match trySheetAt (c :: cs) with
    | some v => some v
    | none => findSheet cs

/-- A value of the `drawing_info` dictionary: `match.group(1)` when the
pattern has a single group, `match.groups()` (a pair) for the two-group
`sheet` pattern. -/
inductive TBVal where
  | single : List Char → TBVal
  | pair : List Char → List Char → TBVal
deriving DecidableEq, Repr

/-- A matched field contributes one insertion-ordered dictionary entry;
a missed pattern contributes nothing. -/
def tbEntry (k : List Char) (v : Option TBVal) : List (List Char × TBVal) :=
  match v with
  | none => []
  | some tv => [(k, tv)]

/-- `extract_title_block_info` from `api/extract.py`: the `drawing_info`
dictionary built by searching the five patterns in order over the joined
text. -/
def extract_title_block_info (all_text : List Char) : List (List Char × TBVal) :=
  tbEntry "drawing_number".toList ((findDrawingNumber all_text).map TBVal.single) ++
  (tbEntry "revision".toList ((findRevision all_text).map TBVal.single) ++
  (tbEntry "scale".toList ((findScale all_text).map TBVal.single) ++
  (tbEntry "date".toList ((findDate all_text).map TBVal.single) ++
  tbEntry "sheet".toList ((findSheet all_text).map fun p => TBVal.pair p.1 p.2))))

/-- The title-block step of `local_server.py`: only four patterns (no
`sheet`), and always `match.group(1)`. -/
def extract_title_local (all_text : List Char) : List (List Char × TBVal) :=
  tbEntry "drawing_number".toList ((findDrawingNumber all_text).map TBVal.single) ++
  (tbEntry "revision".toList ((findRevision all_text).map TBVal.single) ++
  (tbEntry "scale".toList ((findScale all_text).map TBVal.single) ++
  tbEntry "date".toList ((findDate all_text).map TBVal.single)))

/-- Dictionary lookup in an association list. -/
def tbLookup (m : List (List Char × TBVal)) (k : List Char) : Option TBVal :=
  match m with
  | [] => none
  | (k', v) :: rest => if k' = k then some v else tbLookup rest k

/-! ### Document-level aggregation (`extract_drawing_elements`)

The document parser is external; the core consumes, per page, the flat
list of positioned text fragments.  The aggregation below is the
classification loop of `extract_drawing_elements`: cluster each page's
fragments, classify every run, index markers by text in an
insertion-ordered dictionary, and collect every classified element. -/

/-- The `type` tag `'marker'`. -/
def markerTy : List Char := "marker".toList

/-- The `type` tag `'text'`. -/
def textTy : List Char := "text".toList

/-- The cross-page accumulator: `results["markers"]` (insertion-ordered
dictionary) and `results["all_text_elements"]`. -/
structure ExtractState where
  markers : List (List Char × List MarkerOccurrence)
  all_text_elements : List Element
deriving DecidableEq, Repr

/-- `results['summary']` as assembled by the request handler. -/
structure Summary where
  total_pages : Nat
  total_markers : Nat
  total_text_elements : Nat
  marker_types : List (List Char)
deriving DecidableEq, Repr

/-- Append an occurrence under a key: if the key is present, extend its
list in place; otherwise insert the key at the end of the dictionary
with a singleton list.  This is
`if text not in markers: markers[text] = []` followed by
`markers[text].append(occ)`. -/
def addOcc : List (List Char × List MarkerOccurrence) → List Char → MarkerOccurrence →
    List (List Char × List MarkerOccurrence)
  | [], k, o => [(k, [o])]
  | (k', os) :: rest, k, o =>
    if k' = k then (k', os ++ [o]) :: rest else (k', os) :: addOcc rest k o

/-- The `element_data` record built for one classified run. -/
def elementOf (el : Span) (pageNum : Nat) (ty : List Char) : Element :=
  ⟨el.text, el.x, el.y, el.bbox, el.font, el.size, pageNum, ty⟩

/-- Classify one clustered run and accumulate it, as in the body of the
`for el in clean_elements` loop. -/
def classifyElement (pageNum : Nat) (st : ExtractState) (el : Span) : ExtractState :=
  if is_construction_marker el.text then
    { markers := addOcc st.markers el.text ⟨el.x, el.y, el.bbox, pageNum⟩,
      all_text_elements := st.all_text_elements ++ [elementOf el pageNum markerTy] }
  else
    { markers := st.markers,
      all_text_elements := st.all_text_elements ++ [elementOf el pageNum textTy] }

/-- Process one page: cluster its raw fragments with the default
threshold 5, then classify every resulting run in order. -/
def processPage (pageNum : Nat) (st : ExtractState) (raw : List Span) : ExtractState :=
  (cluster_text raw 5).foldl (classifyElement pageNum) st

/-- The page loop of `extract_drawing_elements` (pages are 1-indexed). -/
def extractGo : Nat → ExtractState → List (List Span) → ExtractState
  | _, st, [] => st
  | pageNum, st, raw :: rest => extractGo (pageNum + 1) (processPage pageNum st raw) rest

/-- The classification core of `extract_drawing_elements`: a document is
the per-page lists of raw text fragments produced by the external
parser. -/
def extract_core (pages : List (List Span)) : ExtractState :=
  extractGo 1 ⟨[], []⟩ pages

/-- The summary statistics attached by the request handler:
`total_pages = len(metadata)`, `total_markers = len(markers)`,
`total_text_elements = len(all_text_elements)`,
`marker_types = list(markers.keys())`. -/
def summaryOf (pages : List (List Span)) : Summary :=
  let st := extract_core pages
  ⟨pages.length, st.markers.length, st.all_text_elements.length, st.markers.map Prod.fst⟩

/-- Total number of `MarkerOccurrence` records in the marker map. -/
def occCount (m : List (List Char × List MarkerOccurrence)) : Nat :=
  (m.map fun p => p.2.length).sum

/-- The texts of the elements classified as markers. -/
def markerTexts (st : ExtractState) : List (List Char) :=
  (st.all_text_elements.filter fun e => decide (e.type = markerTy)).map Element.text

/-! ### Claim theorems -/

/-- Outer bbox covers inner bbox. -/
def bboxCovers (outer inner : BBox) : Bool :=
  decide (outer.x0 ≤ inner.x0) && decide (outer.y0 ≤ inner.y0) &&
  decide (inner.x1 ≤ outer.x1) && decide (inner.y1 ≤ outer.y1)

/-- Claim C4: clustering the three fragments S at (10,100), C at (12,100)
and 1 at (14,100) (each glyph two units wide, ten tall) with threshold 5
yields a single run with text "SC1" whose bbox spans all three input
bboxes. -/
theorem claim_C4_cluster_roundtrip :
    cluster_text
      [⟨"S".toList, 10, 100, ⟨10, 100, 12, 110⟩, [], 0⟩,
       ⟨"C".toList, 12, 100, ⟨12, 100, 14, 110⟩, [], 0⟩,
       ⟨"1".toList, 14, 100, ⟨14, 100, 16, 110⟩, [], 0⟩] 5 =
      [⟨"SC1".toList, 10, 100, ⟨10, 100, 16, 110⟩, [], 0⟩] ∧
    bboxCovers ⟨10, 100, 16, 110⟩ ⟨10, 100, 12, 110⟩ = true ∧
    bboxCovers ⟨10, 100, 16, 110⟩ ⟨12, 100, 14, 110⟩ = true ∧
    bboxCovers ⟨10, 100, 16, 110⟩ ⟨14, 100, 16, 110⟩ = true := by
  with_unfolding_all decide

/-- Claim C5: "BP1", "SC2", "RW3a", "C-1", "A1", "FB4" classify as
markers; "BASE PLATE DETAIL", "Steel Connection", "Scale: 1:50" classify
as plain text. -/
theorem claim_C5_classification :
    is_construction_marker "BP1".toList = true ∧
    is_construction_marker "SC2".toList = true ∧
    is_construction_marker "RW3a".toList = true ∧
    is_construction_marker "C-1".toList = true ∧
    is_construction_marker "A1".toList = true ∧
    is_construction_marker "FB4".toList = true ∧
    is_construction_marker "BASE PLATE DETAIL".toList = false ∧
    is_construction_marker "Steel Connection".toList = false ∧
    is_construction_marker "Scale: 1:50".toList = false := by decide

/-- Claim C2 is false as stated: merging the fragment "C" (bbox right
edge 12) into a cluster started by "AB" (bbox right edge 30) produces a
merged bbox whose right edge is 12, the candidate's right edge, strictly
below the maximum 30 of the merged fragments' right edges — the right
edge shrinks. -/
theorem claim_C2_counterexample :
    cluster_text
      [⟨"AB".toList, 10, 100, ⟨10, 100, 30, 110⟩, [], 0⟩,
       ⟨"C".toList, 11, 100, ⟨11, 100, 12, 110⟩, [], 0⟩] 5 =
      [⟨"ABC".toList, 10, 100, ⟨10, 100, 12, 110⟩, [], 0⟩] ∧
    (12 : ℚ) < rmax 30 12 := by
  with_unfolding_all decide

/-- Claim C2 (amended): in every merge step of the clusterer the merged
bbox keeps the first fragment's left and top edges; the bottom edge is
the running maximum over merged fragments (it never shrinks), but the
right edge is the right edge of the fragment merged most recently, not a
running maximum. -/
theorem claim_C2_merge_bbox (cur nxt : Span) :
    (mergeSpan cur nxt).bbox.x0 = cur.bbox.x0 ∧
    (mergeSpan cur nxt).bbox.y0 = cur.bbox.y0 ∧
    (mergeSpan cur nxt).bbox.x1 = nxt.bbox.x1 ∧
    (mergeSpan cur nxt).bbox.y1 = rmax cur.bbox.y1 nxt.bbox.y1 ∧
    cur.bbox.y1 ≤ (mergeSpan cur nxt).bbox.y1 := by
  refine ⟨rfl, rfl, rfl, rfl, ?_⟩
  show cur.bbox.y1 ≤ rmax cur.bbox.y1 nxt.bbox.y1
  unfold rmax
  split
  · assumption
  · exact le_refl _

/-- Claim C10: the horizontal-closeness test is a signed difference, not
a distance: whenever the candidate is on a near-same line and its x does
not exceed the cluster's x plus twice the cluster's text length, both
merge conditions hold (for any positive threshold, in particular the
default 5) and the loop merges the candidate into the cluster — no
matter how far left of the cluster the candidate lies. -/
theorem claim_C10_signed_closeness (threshold : ℚ) (cur nxt : Span)
    (hth : 0 < threshold)
    (hy : rabs (nxt.y - cur.y) < 2)
    (hx : nxt.x ≤ cur.x + (cur.text.length : ℚ) * 2) :
    same_line cur nxt = true ∧ close_horizontally threshold cur nxt = true ∧
    ∀ rest, clusterLoop threshold cur (nxt :: rest) =
      clusterLoop threshold (mergeSpan cur nxt) rest := by
  have h1 : same_line cur nxt = true := by
    simpa [same_line, decide_eq_true_eq] using hy
  have h2 : close_horizontally threshold cur nxt = true := by
    simp only [close_horizontally, decide_eq_true_eq]
    linarith
  refine ⟨h1, h2, fun rest => ?_⟩
  simp [clusterLoop, h1, h2]

/-- Witness for claim C10 at a concrete input: a candidate eight units to
the LEFT of the current cluster's x still merges. -/
theorem claim_C10_witness :
    same_line ⟨"AB".toList, 10, 100, ⟨10, 100, 14, 110⟩, [], 0⟩
        ⟨"Z".toList, 2, 101, ⟨2, 101, 4, 111⟩, [], 0⟩ = true ∧
    close_horizontally 5 ⟨"AB".toList, 10, 100, ⟨10, 100, 14, 110⟩, [], 0⟩
        ⟨"Z".toList, 2, 101, ⟨2, 101, 4, 111⟩, [], 0⟩ = true ∧
    clusterLoop 5 ⟨"AB".toList, 10, 100, ⟨10, 100, 14, 110⟩, [], 0⟩
        [⟨"Z".toList, 2, 101, ⟨2, 101, 4, 111⟩, [], 0⟩] =
      clusterLoop 5
        (mergeSpan ⟨"AB".toList, 10, 100, ⟨10, 100, 14, 110⟩, [], 0⟩
          ⟨"Z".toList, 2, 101, ⟨2, 101, 4, 111⟩, [], 0⟩) [] := by
  have h := claim_C10_signed_closeness 5
    ⟨"AB".toList, 10, 100, ⟨10, 100, 14, 110⟩, [], 0⟩
    ⟨"Z".toList, 2, 101, ⟨2, 101, 4, 111⟩, [], 0⟩
    (by with_unfolding_all decide) (by with_unfolding_all decide)
    (by with_unfolding_all decide)
  exact ⟨h.1, h.2.1, h.2.2 []⟩

/-- The joined clustered text of the C1 scenario. -/
def c1Text : List Char := "Drawing: DWG-001 Rev: A Scale: 1:50".toList

/-- Claim C1 is false as stated: on joined text containing
"Drawing: DWG-001 Rev: A" and "Scale: 1:50" the extractor stores
drawing_number "DWG-001", not "001" — the case-insensitive DRAWING label
matches the word "Drawing", so the whole token "DWG-001" is captured. -/
theorem claim_C1_counterexample :
    containsSub "Drawing: DWG-001 Rev: A".toList c1Text = true ∧
    containsSub "Scale: 1:50".toList c1Text = true ∧
    tbLookup (extract_title_block_info c1Text) "drawing_number".toList =
      some (TBVal.single "DWG-001".toList) ∧
    TBVal.single "DWG-001".toList ≠ TBVal.single "001".toList := by decide

/-- Claim C1 (amended): on the joined text
"Drawing: DWG-001 Rev: A Scale: 1:50" the extractor yields
drawing_number "DWG-001" (the DWG token is part of the captured value),
revision "A" and scale "1:50" (the Rev and Scale labels are not part of
their captured values). -/
theorem claim_C1_title_block :
    tbLookup (extract_title_block_info c1Text) "drawing_number".toList =
      some (TBVal.single "DWG-001".toList) ∧
    tbLookup (extract_title_block_info c1Text) "revision".toList =
      some (TBVal.single "A".toList) ∧
    tbLookup (extract_title_block_info c1Text) "scale".toList =
      some (TBVal.single "1:50".toList) := by decide

/-- Every element of a `takeWhile` run satisfies the predicate. -/
theorem all_takeWhile (p : Char → Bool) (l : List Char) :
    (l.takeWhile p).all p = true := by
  rw [List.all_eq_true]
  intro x hx
  exact List.mem_takeWhile_imp hx

/-- The `drawing_number` capture is a non-empty run of capture-class
characters. -/
theorem captureDwg_sound {r v : List Char} (h : captureDwg r = some v) :
    v ≠ [] ∧ v.all isDwgCapChar = true := by
  simp only [captureDwg] at h
  by_cases hc : (r.dropWhile isSepChar).takeWhile isDwgCapChar = []
  · rw [if_pos hc] at h
    exact absurd h (by simp)
  · rw [if_neg hc] at h
    have hv : v = (r.dropWhile isSepChar).takeWhile isDwgCapChar := (Option.some.inj h).symm
    subst hv
    exact ⟨hc, all_takeWhile _ _⟩

/-- Soundness of the per-position attempt for `drawing_number`. -/
theorem tryDwgAt_sound {t v : List Char} (h : tryDwgAt t = some v) :
    v ≠ [] ∧ v.all isDwgCapChar = true := by
  unfold tryDwgAt at h
  cases h1 : matchCI "DWG".toList t with
  | some r =>
    rw [h1] at h
    exact captureDwg_sound h
  | none =>
    rw [h1] at h
    cases h2 : matchCI "DRAWING".toList t with
    | some r =>
      rw [h2] at h
      exact captureDwg_sound h
    | none =>
      rw [h2] at h
      exact absurd h (by simp)

/-- Claim C3 (amended): whenever the extractor stores a drawing_number,
the value is a non-empty string of letters (upper- OR lower-case, since
the search is case-insensitive), digits, and hyphens. -/
theorem claim_C3_drawing_number_charset (t v : List Char)
    (h : findDrawingNumber t = some v) :
    v ≠ [] ∧ v.all isDwgCapChar = true := by
  induction t with
  | nil => exact absurd h (by simp [findDrawingNumber])
  | cons c cs ih =>
    rw [findDrawingNumber] at h
    cases h1 : tryDwgAt (c :: cs) with
    | some w =>
      rw [h1] at h
      have hw : w = v := Option.some.inj h
      subst hw
      exact tryDwgAt_sound h1
    | none =>
      rw [h1] at h
      exact ih h

/-- Claim C3 is false as stated: on text "DWG a" the stored
drawing_number is "a", which contains no uppercase letter, digit or
hyphen — the case-insensitive search lets the capture class match
lowercase letters. -/
theorem claim_C3_counterexample :
    findDrawingNumber "DWG a".toList = some ['a'] ∧
    (isUpperAZ 'a' || isDigit09 'a' || decide ('a' = '-')) = false := by decide

/-- Witness for claim C3: the value captured from "Drawing: DWG-001" is
non-empty and drawn from the capture class. -/
theorem claim_C3_witness :
    "DWG-001".toList ≠ [] ∧ ("DWG-001".toList).all isDwgCapChar = true :=
  claim_C3_drawing_number_charset "Drawing: DWG-001".toList "DWG-001".toList (by decide)

/-- Looking up a key different from an entry's key skips the entry. -/
theorem tbLookup_entry_ne (k k' : List Char) (hne : k ≠ k')
    (v : Option TBVal) (rest : List (List Char × TBVal)) :
    tbLookup (tbEntry k v ++ rest) k' = tbLookup rest k' := by
  cases v with
  | none => simp [tbEntry]
  | some tv => simp [tbEntry, tbLookup, hne]

/-- Looking up a key different from a final entry's key finds nothing. -/
theorem tbLookup_entry_ne_nil (k k' : List Char) (hne : k ≠ k')
    (v : Option TBVal) :
    tbLookup (tbEntry k v) k' = none := by
  cases v with
  | none => simp [tbEntry, tbLookup]
  | some tv => simp [tbEntry, tbLookup, hne]

/-- Looking up the key of a present final entry finds its value. -/
theorem tbLookup_entry_hit (k : List Char) (tv : TBVal) :
    tbLookup (tbEntry k (some tv)) k = some tv := by
  simp [tbEntry, tbLookup]

/-- Claim C7 (amended): whenever the sheet pattern matches the joined
text, the `api/extract.py` extractor stores a two-part sheet value
(sheet index, total sheets); the `local_server.py` variant has no sheet
pattern and its drawing_info never contains a sheet field. -/
theorem claim_C7_sheet_pair (t a b : List Char)
    (h : findSheet t = some (a, b)) :
    tbLookup (extract_title_block_info t) "sheet".toList =
      some (TBVal.pair a b) ∧
    tbLookup (extract_title_local t) "sheet".toList = none := by
  constructor
  · unfold extract_title_block_info
    rw [tbLookup_entry_ne "drawing_number".toList "sheet".toList (by decide),
        tbLookup_entry_ne "revision".toList "sheet".toList (by decide),
        tbLookup_entry_ne "scale".toList "sheet".toList (by decide),
        tbLookup_entry_ne "date".toList "sheet".toList (by decide), h]
    exact tbLookup_entry_hit _ _
  · unfold extract_title_local
    rw [tbLookup_entry_ne "drawing_number".toList "sheet".toList (by decide),
        tbLookup_entry_ne "revision".toList "sheet".toList (by decide),
        tbLookup_entry_ne "scale".toList "sheet".toList (by decide)]
    exact tbLookup_entry_ne_nil "date".toList "sheet".toList (by decide) _

/-- Claim C7 is false as stated for the `local_server.py` variant: on
text "SHEET 1 OF 2" the sheet pattern matches, yet the local variant's
drawing_info has no sheet field. -/
theorem claim_C7_counterexample :
    findSheet "SHEET 1 OF 2".toList = some ("1".toList, "2".toList) ∧
    tbLookup (extract_title_local "SHEET 1 OF 2".toList) "sheet".toList =
      none := by decide

/-- Witness for claim C7 on the text "SHEET 1 OF 2". -/
theorem claim_C7_witness :
    tbLookup (extract_title_block_info "SHEET 1 OF 2".toList) "sheet".toList =
      some (TBVal.pair "1".toList "2".toList) ∧
    tbLookup (extract_title_local "SHEET 1 OF 2".toList) "sheet".toList =
      none :=
  claim_C7_sheet_pair "SHEET 1 OF 2".toList "1".toList "2".toList (by decide)

/-- Dropping a satisfying prefix does not change whether every element
satisfies the predicate. -/
theorem forall_dropWhile_iff (p : Char → Bool) (t : List Char) :
    (∀ c ∈ t.dropWhile p, p c = true) ↔ (∀ c ∈ t, p c = true) := by
  induction t with
  | nil => simp
  | cons c cs ih =>
    simp only [List.dropWhile_cons]
    by_cases hc : p c = true
    · simp [hc, ih]
    · simp [hc]

/-- A stripped text is empty exactly when every character is
whitespace. -/
theorem pyStrip_eq_nil_iff (t : List Char) :
    pyStrip t = [] ↔ ∀ c ∈ t, isSpaceChar c = true := by
  unfold pyStrip
  rw [List.reverse_eq_nil_iff, List.dropWhile_eq_nil_iff]
  simp only [List.mem_reverse]
  exact forall_dropWhile_iff isSpaceChar t

/-- Appending cannot strip a non-blank text down to nothing. -/
theorem pyStrip_append_ne_nil {a : List Char} (b : List Char)
    (ha : pyStrip a ≠ []) : pyStrip (a ++ b) ≠ [] := by
  intro hab
  apply ha
  rw [pyStrip_eq_nil_iff] at hab ⊢
  intro c hc
  exact hab c (List.mem_append_left _ hc)

/-- Joined text through the cluster loop: when every fragment has
non-blank text, the loop emits every character exactly once and in
order. -/
theorem clusterLoop_join (threshold : ℚ) (rest : List Span) :
    ∀ cur : Span, pyStrip cur.text ≠ [] →
      (∀ s ∈ rest, pyStrip s.text ≠ []) →
      ((clusterLoop threshold cur rest).map Span.text).flatten =
        cur.text ++ (rest.map Span.text).flatten := by
  induction rest with
  | nil =>
    intro cur hcur _
    simp [clusterLoop, emitCur, hcur]
  | cons nxt rest ih =>
    intro cur hcur hrest
    rw [clusterLoop]
    have hnxt : pyStrip nxt.text ≠ [] := hrest nxt (List.mem_cons_self _ _)
    have htail : ∀ s ∈ rest, pyStrip s.text ≠ [] :=
      fun s hs => hrest s (List.mem_cons_of_mem _ hs)
    by_cases hm : (same_line cur nxt && close_horizontally threshold cur nxt) = true
    · rw [if_pos hm]
      have h1 : pyStrip (mergeSpan cur nxt).text ≠ [] := by
        show pyStrip (cur.text ++ nxt.text) ≠ []
        exact pyStrip_append_ne_nil nxt.text hcur
      rw [ih (mergeSpan cur nxt) h1 htail]
      show (cur.text ++ nxt.text) ++ _ = _
      simp [List.append_assoc]
    · rw [if_neg hm]
      rw [List.map_append, List.flatten_append]
      rw [ih nxt hnxt htail]
      simp [emitCur, hcur]

/-- Membership through stable insertion. -/
theorem mem_insertSpan (s a : Span) (l : List Span) :
    a ∈ insertSpan s l ↔ a = s ∨ a ∈ l := by
  induction l with
  | nil => simp [insertSpan]
  | cons t ts ih =>
    rw [insertSpan]
    by_cases h : spanKeyLE t s = true
    · rw [if_pos h]
      simp only [List.mem_cons, ih]
      tauto
    · rw [if_neg h]
      simp only [List.mem_cons]

/-- Membership through the sorting fold. -/
theorem mem_sortFold (a : Span) (l : List Span) :
    ∀ acc : List Span,
      a ∈ l.foldl (fun acc s => insertSpan s acc) acc → a ∈ acc ∨ a ∈ l := by
  induction l with
  | nil => intro acc h; exact Or.inl h
  | cons s ss ih =>
    intro acc h
    rw [List.foldl_cons] at h
    rcases ih (insertSpan s acc) h with h' | h'
    · rcases (mem_insertSpan s a acc).1 h' with h'' | h''
      · exact Or.inr (by simp [h''])
      · exact Or.inl h''
    · exact Or.inr (List.mem_cons_of_mem _ h')

/-- The sorted list contains only input fragments. -/
theorem mem_sortSpans {a : Span} {l : List Span} (ha : a ∈ sortSpans l) :
    a ∈ l := by
  rcases mem_sortFold a l [] ha with h | h
  · exact absurd h (List.not_mem_nil a)
  · exact h

/-- Claim C8: for fragments whose stripped texts are all non-empty, the
concatenation of the clusterer's output texts equals the concatenation
of the fragments' texts in (y, x)-sorted order — clustering neither
loses, duplicates, nor reorders characters. -/
theorem claim_C8_text_preservation (spans : List Span) (threshold : ℚ)
    (h : ∀ s ∈ spans, pyStrip s.text ≠ []) :
    ((cluster_text spans threshold).map Span.text).flatten =
      ((sortSpans spans).map Span.text).flatten := by
  unfold cluster_text
  cases hs : sortSpans spans with
  | nil => simp
  | cons s rest =>
    have hmem : ∀ x ∈ sortSpans spans, pyStrip x.text ≠ [] :=
      fun x hx => h x (mem_sortSpans hx)
    rw [hs] at hmem
    have hcur := hmem s (List.mem_cons_self _ _)
    have hrest : ∀ x ∈ rest, pyStrip x.text ≠ [] :=
      fun x hx => hmem x (List.mem_cons_of_mem _ hx)
    rw [clusterLoop_join threshold rest s hcur hrest]
    simp

/-- Witness for claim C8 on three concrete fragments spanning two
lines. -/
theorem claim_C8_witness :
    ((cluster_text
        [⟨"B".toList, 10, 100, ⟨10, 100, 12, 110⟩, [], 0⟩,
         ⟨"P".toList, 12, 100, ⟨12, 100, 14, 110⟩, [], 0⟩,
         ⟨"Q".toList, 10, 200, ⟨10, 200, 12, 210⟩, [], 0⟩] 5).map Span.text).flatten =
      ((sortSpans
        [⟨"B".toList, 10, 100, ⟨10, 100, 12, 110⟩, [], 0⟩,
         ⟨"P".toList, 12, 100, ⟨12, 100, 14, 110⟩, [], 0⟩,
         ⟨"Q".toList, 10, 200, ⟨10, 200, 12, 210⟩, [], 0⟩]).map Span.text).flatten :=
  claim_C8_text_preservation
    [⟨"B".toList, 10, 100, ⟨10, 100, 12, 110⟩, [], 0⟩,
     ⟨"P".toList, 12, 100, ⟨12, 100, 14, 110⟩, [], 0⟩,
     ⟨"Q".toList, 10, 200, ⟨10, 200, 12, 210⟩, [], 0⟩] 5
    (by decide)

/-- Keys after `addOcc`: unchanged when the key was present, otherwise
the key is appended at the end. -/
theorem addOcc_keys (m : List (List Char × List MarkerOccurrence))
    (k : List Char) (o : MarkerOccurrence) :
    (addOcc m k o).map Prod.fst =
      if k ∈ m.map Prod.fst then m.map Prod.fst else m.map Prod.fst ++ [k] := by
  induction m with
  | nil => simp [addOcc]
  | cons p rest ih =>
    obtain ⟨k', os⟩ := p
    rw [addOcc]
    by_cases hk : k' = k
    · subst hk
      simp
    · rw [if_neg hk]
      by_cases hm : k ∈ rest.map Prod.fst
      · simp [ih, hm, Ne.symm hk]
      · simp [ih, hm, Ne.symm hk]

/-- `addOcc` adds exactly one occurrence record. -/
theorem addOcc_occCount (m : List (List Char × List MarkerOccurrence))
    (k : List Char) (o : MarkerOccurrence) :
    occCount (addOcc m k o) = occCount m + 1 := by
  induction m with
  | nil => simp [addOcc, occCount]
  | cons p rest ih =>
    obtain ⟨k', os⟩ := p
    rw [addOcc]
    by_cases hk : k' = k
    · subst hk
      simp [occCount]
      omega
    · rw [if_neg hk]
      simp only [occCount, List.map_cons, List.sum_cons] at ih ⊢
      omega

/-- The classification invariant maintained across elements and pages:
marker keys are distinct, every key classifies as a marker, every
element is tagged marker or text, the marker map holds one occurrence
per marker-tagged element, and the keys are exactly the marker-tagged
texts. -/
def ExtractInv (st : ExtractState) : Prop :=
  (st.markers.map Prod.fst).Nodup ∧
  (∀ k ∈ st.markers.map Prod.fst, is_construction_marker k = true) ∧
  (∀ e ∈ st.all_text_elements, e.type = markerTy ∨ e.type = textTy) ∧
  occCount st.markers =
    (st.all_text_elements.filter fun e => decide (e.type = markerTy)).length ∧
  (∀ k, k ∈ st.markers.map Prod.fst ↔ k ∈ markerTexts st)

/-- The invariant survives classifying one clustered run. -/
theorem ExtractInv_classify (pg : Nat) (st : ExtractState) (el : Span)
    (h : ExtractInv st) : ExtractInv (classifyElement pg st el) := by
  obtain ⟨h1, h2, h3, h4, h5⟩ := h
  unfold classifyElement
  by_cases hm : is_construction_marker el.text = true
  · rw [if_pos hm]
    have hfilter :
        ((st.all_text_elements ++ [elementOf el pg markerTy]).filter
          fun e => decide (e.type = markerTy)) =
        (st.all_text_elements.filter fun e => decide (e.type = markerTy)) ++
          [elementOf el pg markerTy] := by
      rw [List.filter_append]
      simp [elementOf]
    refine ⟨?_, ?_, ?_, ?_, ?_⟩
    · rw [addOcc_keys]
      by_cases hin : el.text ∈ st.markers.map Prod.fst
      · rw [if_pos hin]
        exact h1
      · rw [if_neg hin]
        simp [List.nodup_append, h1, hin]
    · intro k hk
      rw [addOcc_keys] at hk
      by_cases hin : el.text ∈ st.markers.map Prod.fst
      · rw [if_pos hin] at hk
        exact h2 k hk
      · rw [if_neg hin] at hk
        rcases List.mem_append.1 hk with hk' | hk'
        · exact h2 k hk'
        · rw [List.mem_singleton.1 hk']
          exact hm
    · intro e he
      rcases List.mem_append.1 he with he' | he'
      · exact h3 e he'
      · rw [List.mem_singleton.1 he']
        exact Or.inl rfl
    · rw [addOcc_occCount, hfilter]
      simp [h4]
    · intro k
      rw [addOcc_keys]
      have htexts : markerTexts
          ⟨addOcc st.markers el.text ⟨el.x, el.y, el.bbox, pg⟩,
           st.all_text_elements ++ [elementOf el pg markerTy]⟩ =
          markerTexts st ++ [el.text] := by
        unfold markerTexts
        rw [hfilter]
        simp [elementOf]
      rw [htexts]
      by_cases hin : el.text ∈ st.markers.map Prod.fst
      · rw [if_pos hin]
        constructor
        · intro hk
          exact List.mem_append_left _ ((h5 k).1 hk)
        · intro hk
          rcases List.mem_append.1 hk with hk' | hk'
          · exact (h5 k).2 hk'
          · rw [List.mem_singleton.1 hk']
            exact hin
      · rw [if_neg hin]
        constructor
        · intro hk
          rcases List.mem_append.1 hk with hk' | hk'
          · exact List.mem_append_left _ ((h5 k).1 hk')
          · exact List.mem_append_right _ hk'
        · intro hk
          rcases List.mem_append.1 hk with hk' | hk'
          · exact List.mem_append_left _ ((h5 k).2 hk')
          · exact List.mem_append_right _ hk'
  · rw [if_neg hm]
    have hfilter :
        ((st.all_text_elements ++ [elementOf el pg textTy]).filter
          fun e => decide (e.type = markerTy)) =
        st.all_text_elements.filter fun e => decide (e.type = markerTy) := by
      rw [List.filter_append]
      have hne : ¬ (textTy = markerTy) := by decide
      simp [elementOf, hne]
    refine ⟨h1, h2, ?_, ?_, ?_⟩
    · intro e he
      rcases List.mem_append.1 he with he' | he'
      · exact h3 e he'
      · rw [List.mem_singleton.1 he']
        exact Or.inr rfl
    · rw [hfilter]
      exact h4
    · intro k
      have htexts : markerTexts
          ⟨st.markers, st.all_text_elements ++ [elementOf el pg textTy]⟩ =
          markerTexts st := by
        unfold markerTexts
        rw [hfilter]
      rw [htexts]
      exact h5 k

/-- The invariant survives a page's classification fold. -/
theorem ExtractInv_foldl (pg : Nat) (l : List Span) :
    ∀ st : ExtractState, ExtractInv st → ExtractInv (l.foldl (classifyElement pg) st) := by
  induction l with
  | nil => intro st h; exact h
  | cons s ss ih =>
    intro st h
    rw [List.foldl_cons]
    exact ih _ (ExtractInv_classify pg st s h)

/-- The invariant survives the whole page loop. -/
theorem ExtractInv_extractGo (pages : List (List Span)) :
    ∀ (n : Nat) (st : ExtractState), ExtractInv st → ExtractInv (extractGo n st pages) := by
  induction pages with
  | nil => intro n st h; exact h
  | cons raw rest ih =>
    intro n st h
    show ExtractInv (extractGo (n + 1) (processPage n st raw) rest)
    exact ih _ _ (ExtractInv_foldl n (cluster_text raw 5) st h)

/-- The classification invariant holds of every extraction result. -/
theorem ExtractInv_extract_core (pages : List (List Span)) :
    ExtractInv (extract_core pages) := by
  apply ExtractInv_extractGo
  refine ⟨List.nodup_nil, ?_, ?_, ?_, ?_⟩ <;> simp [occCount, markerTexts]

/-- Classifying one run appends exactly one element. -/
theorem len_classify (pg : Nat) (st : ExtractState) (el : Span) :
    (classifyElement pg st el).all_text_elements.length =
      st.all_text_elements.length + 1 := by
  unfold classifyElement
  by_cases hm : is_construction_marker el.text = true
  · rw [if_pos hm]
    simp
  · rw [if_neg hm]
    simp

/-- A page's fold appends one element per classified run. -/
theorem len_foldl (pg : Nat) (l : List Span) :
    ∀ st : ExtractState,
      (l.foldl (classifyElement pg) st).all_text_elements.length =
        st.all_text_elements.length + l.length := by
  induction l with
  | nil => intro st; simp
  | cons s ss ih =>
    intro st
    rw [List.foldl_cons, ih]
    rw [len_classify]
    simp
    omega

/-- The page loop appends, per page, one element per clustered run. -/
theorem len_extractGo (pages : List (List Span)) :
    ∀ (n : Nat) (st : ExtractState),
      (extractGo n st pages).all_text_elements.length =
        st.all_text_elements.length +
          (pages.map fun raw => (cluster_text raw 5).length).sum := by
  induction pages with
  | nil => intro n st; simp [extractGo]
  | cons raw rest ih =>
    intro n st
    show (extractGo (n + 1) (processPage n st raw) rest).all_text_elements.length = _
    rw [ih]
    unfold processPage
    rw [len_foldl]
    simp
    omega

/-- Claim C6: in the summary, total_markers equals the number of
distinct marker texts among the classified runs (keys of the marker map,
not occurrences), and total_text_elements equals the total count of
classified runs over all pages, markers and text combined. -/
theorem claim_C6_summary_counts (pages : List (List Span)) :
    (summaryOf pages).total_markers =
      ((markerTexts (extract_core pages)).dedup).length ∧
    (summaryOf pages).total_text_elements =
      (pages.map fun raw => (cluster_text raw 5).length).sum := by
  constructor
  · obtain ⟨h1, h2, h3, h4, h5⟩ := ExtractInv_extract_core pages
    have hperm : List.Perm ((extract_core pages).markers.map Prod.fst)
        ((markerTexts (extract_core pages)).dedup) :=
      (List.perm_ext_iff_of_nodup h1 (List.nodup_dedup _)).2
        (fun a => by rw [List.mem_dedup]; exact h5 a)
    have hlen := hperm.length_eq
    calc (summaryOf pages).total_markers
        = ((extract_core pages).markers.map Prod.fst).length := by
          simp [summaryOf]
      _ = _ := hlen
  · show (extract_core pages).all_text_elements.length = _
    unfold extract_core
    rw [len_extractGo]
    simp

/-- Claim C9: every key of the marker map classifies as a construction
marker; every collected element is tagged marker or text; and the total
number of marker occurrence records equals the number of marker-tagged
elements. -/
theorem claim_C9_classification_invariants (pages : List (List Span)) :
    (((extract_core pages).markers.map Prod.fst).all
        fun k => is_construction_marker k) = true ∧
    ((extract_core pages).all_text_elements.all
        fun e => decide (e.type = markerTy) || decide (e.type = textTy)) = true ∧
    occCount (extract_core pages).markers =
      ((extract_core pages).all_text_elements.filter
        fun e => decide (e.type = markerTy)).length := by
  obtain ⟨h1, h2, h3, h4, h5⟩ := ExtractInv_extract_core pages
  refine ⟨?_, ?_, h4⟩
  · rw [List.all_eq_true]
    intro k hk
    exact h2 k hk
  · rw [List.all_eq_true]
    intro e he
    rcases h3 e he with h | h <;> simp [h]
